import Mathlib

/-!
Verification of the document-decomposition core of the Image-Card HTML
Downloader repository (`extractArtifacts` and `parseHtmlForPreview` from the
artifact-extraction module), as a shallow embedding in Lean.

The external lenient HTML parse capability (the browser `DOMParser`) is
modelled as an oracle `String → Option HtmlDoc`: `none` models a structural
error raised while handling a block (the code's per-block `catch`), `some doc`
the parsed head/body subtrees.  Every string-level computation (block
detection regexes, the `<title>` regex, trimming, the CSS `body`-selector
rewrite, decimal rendering of indices for ids) is translated directly from
the source and is executable.
-/

namespace ImageCard

/-! ## Character and string helpers (JS semantics) -/

/-- ASCII lower-casing of one character (JS `toLowerCase` on the inputs used
by the extractor, which are ASCII class names and tags). -/
def lcChar (c : Char) : Char :=
  if 'A' ≤ c ∧ c ≤ 'Z' then Char.ofNat (c.toNat + 32) else c

/-- Lower-case a whole string. -/
def lowerStr (s : String) : String := String.mk (s.data.map lcChar)

/-- JS whitespace (the characters `\s` matches / `String.prototype.trim`
strips, restricted to the code points that can occur here). -/
def isJsSpace (c : Char) : Bool :=
  c == ' ' || c == '\t' || c == '\n' || c == '\r' ||
  c.toNat == 11 || c.toNat == 12 || c.toNat == 0xA0 || c.toNat == 0xFEFF

/-- JS `String.prototype.trim` on a character list. -/
def jsTrim (l : List Char) : List Char :=
  ((l.dropWhile isJsSpace).reverse.dropWhile isJsSpace).reverse

/-- JS `String.prototype.trim`. -/
def jsTrimS (s : String) : String := String.mk (jsTrim s.data)

/-- Case-insensitive "the pattern is a prefix of the text" (the way a literal
inside a `/.../i` regex matches at a position). -/
def ciStarts : List Char → List Char → Bool
  | [], _ => true
  | _ :: _, [] => false
  | p :: ps, c :: cs => (lcChar p == lcChar c) && ciStarts ps cs

/-- Case-sensitive substring containment, i.e. JS `String.prototype.includes`. -/
def containsSub (pat : List Char) : List Char → Bool
  | [] => pat.isPrefixOf []
  | c :: rest => pat.isPrefixOf (c :: rest) || containsSub pat rest

/-- Scan for the first case-insensitive occurrence of `pat`; on success return
the text before the occurrence, the occurrence as written in the text, and the
text after it.  This is how a lazy `[\s\S]*?` up to a literal behaves. -/
def splitAtPat (pat : List Char) : List Char → Option (List Char × List Char × List Char)
  | [] => none
  | c :: cs =>
    if ciStarts pat (c :: cs) then
      some ([], (c :: cs).take pat.length, (c :: cs).drop pat.length)
    else
      match splitAtPat pat cs with
      | some (pre, m, rest) => some (c :: pre, m, rest)
      | none => none

/-- ASCII letter test (`[a-z]` under the `i` flag). -/
def isAsciiLetter (c : Char) : Bool :=
  ('a' ≤ c && c ≤ 'z') || ('A' ≤ c && c ≤ 'Z')

/-- Test of the regex `/<[a-z][\s\S]*>/i`: somewhere a `<` followed by an
ASCII letter, with a `>` strictly after the letter. -/
def hasTagPattern : List Char → Bool
  | '<' :: c :: rest =>
    (isAsciiLetter c && rest.contains '>') || hasTagPattern (c :: rest)
  | _ :: rest => hasTagPattern rest
  | [] => false

/-! ## Block detection (tier 1: markdown fences, tier 2: raw documents,
tier 3: bare fragment) -/

/-- One pass of `/```html([\s\S]*?)```/gi`: at each position try to match the
opener; on success take the lazy group up to the first closing fence and
continue after it.  Fuel is the remaining text length (each step consumes at
least one character). -/
def mdScanAux : Nat → List Char → List (List Char)
  | 0, _ => []
  | _ + 1, [] => []
  | f + 1, c :: cs =>
    if ciStarts ("```html".data) (c :: cs) then
      match splitAtPat ("```".data) ((c :: cs).drop 7) with
      | some (inner, _, rest) => inner :: mdScanAux f rest
      | none => mdScanAux f cs
    else mdScanAux f cs

/-- The trimmed group contents of every ```` ```html ```` fence, in source
order (`mdMatches.map (m => m[1].trim())` in the source). -/
def mdBlocks (text : String) : List String :=
  (mdScanAux (text.data.length + 1) text.data).map (fun l => String.mk (jsTrim l))

/-- One pass of `/(<!DOCTYPE html>[\s\S]*?<\/html>|<html[\s\S]*?<\/html>)/gi`:
each match is the full span from the opener to the first `</html>` after it. -/
def rawScanAux : Nat → List Char → List (List Char)
  | 0, _ => []
  | _ + 1, [] => []
  | f + 1, c :: cs =>
    if ciStarts ("<!DOCTYPE html>".data) (c :: cs) then
      match splitAtPat ("</html>".data) ((c :: cs).drop 15) with
      | some (mid, m, rest) => ((c :: cs).take 15 ++ mid ++ m) :: rawScanAux f rest
      | none => rawScanAux f cs
    else if ciStarts ("<html".data) (c :: cs) then
      match splitAtPat ("</html>".data) ((c :: cs).drop 5) with
      | some (mid, m, rest) => ((c :: cs).take 5 ++ mid ++ m) :: rawScanAux f rest
      | none => rawScanAux f cs
    else rawScanAux f cs

/-- The trimmed full spans of every raw document match, in source order. -/
def rawBlocks (text : String) : List String :=
  (rawScanAux (text.data.length + 1) text.data).map (fun l => String.mk (jsTrim l))

/-- Step 1 of `extractArtifacts`: detect blocks.  Tier 1 (fences) wins if
non-empty, else tier 2 (raw documents), else the bare-fragment fallback:
the trimmed whole input, provided it looks like markup and contains the
lower-case substring `<div` or `<style`. -/
def detectBlocks (text : String) : List String :=
  if 0 < (mdBlocks text).length then mdBlocks text
  else if 0 < (rawBlocks text).length then rawBlocks text
  else if hasTagPattern (jsTrimS text).data &&
      (containsSub ("<div".data) (jsTrimS text).data ||
        containsSub ("<style".data) (jsTrimS text).data)
  then [jsTrimS text] else []

/-! ## The `<title>` regex of the no-split branch -/

/-- The lazy group `(.*?)` of `/<title>(.*?)<\/title>/i` starting at the
current position: collect characters until the closing tag, failing on a line
terminator (`.` does not match those). -/
def sameLineUpTo (pat : List Char) : List Char → Option (List Char)
  | [] => none
  | c :: cs =>
    if ciStarts pat (c :: cs) then some []
    else if c == '\n' || c == '\r' || c.toNat == 0x2028 || c.toNat == 0x2029 then none
    else (sameLineUpTo pat cs).map (fun g => c :: g)

/-- Scan for the first match of `/<title>(.*?)<\/title>/i`, returning the
group. -/
def titleScanAux : Nat → List Char → Option (List Char)
  | 0, _ => none
  | _ + 1, [] => none
  | f + 1, c :: cs =>
    if ciStarts ("<title>".data) (c :: cs) then
      match sameLineUpTo ("</title>".data) ((c :: cs).drop 7) with
      | some g => some g
      | none => titleScanAux f cs
    else titleScanAux f cs

/-- Model of `block.match(/<title>(.*?)<\/title>/i)`, returning the captured group of
the first match when there is one. -/
def titleTagMatch (block : String) : Option String :=
  (titleScanAux (block.data.length + 1) block.data).map String.mk

/-! ## Decimal rendering of indices (JS `${n}` interpolation) -/

/-- The character of one decimal digit. -/
def digitCh (d : Nat) : Char := Char.ofNat (48 + d % 10)

/-- Fuel-driven decimal rendering (accumulator holds the already-rendered
low digits), kept structural so that it evaluates by `decide`/`rfl`. -/
def natStrGo : Nat → Nat → List Char → List Char
  | 0, _, acc => acc
  | f + 1, n, acc =>
    if n < 10 then digitCh n :: acc else natStrGo f (n / 10) (digitCh (n % 10) :: acc)

/-- Decimal digits of `n`, most significant first. -/
def natStr (n : Nat) : List Char := natStrGo (n + 1) n []

/-- Decimal rendering of a natural number as a string (JS number-to-string
for the non-negative integers used as indices and timestamps). -/
def natToString (n : Nat) : String := String.mk (natStr n)

/-- Reference decimal rendering by well-founded recursion; used only in
proofs (it equals `natStr`). -/
def natStrD (n : Nat) : List Char :=
  if h : n < 10 then [digitCh n] else
    have : n / 10 < n := Nat.div_lt_self (by omega) (by omega)
    natStrD (n / 10) ++ [digitCh (n % 10)]

/-! ## The parsed-document model

The browser's lenient HTML parse is an external capability.  Its output is
modelled as a read-only tree: element nodes carry the DOM `tagName` (upper
case for HTML elements), the attribute list, and the child nodes; text nodes
carry their text.  A parsed block exposes the head subtree and the body
subtree (`doc.head` / `doc.body` children). -/

inductive Node where
  | el (tag : String) (attrs : List (String × String)) (children : List Node)
  | txt (s : String)

/-- A parsed block: children of `doc.head` and of `doc.body`. -/
structure HtmlDoc where
  headChildren : List Node
  bodyChildren : List Node

def isElem : Node → Bool
  | .el _ _ _ => true
  | .txt _ => false

def tagOf : Node → String
  | .el t _ _ => t
  | .txt _ => ""

def childrenOf : Node → List Node
  | .el _ _ ch => ch
  | .txt _ => []

/-- Model of `el.getAttribute(name)`: `none` models the DOM's `null`. -/
def getAttr (n : Node) (name : String) : Option String :=
  match n with
  | .el _ attrs _ => attrs.lookup name
  | .txt _ => none

/-- Model of `el.className` (the `class` attribute, `""` when absent). -/
def className (n : Node) : String := (getAttr n ("class")).getD ""

/-- Tags filtered out by the source's `getMeaningfulChildren`. -/
def excludedTags : List String :=
  [("SCRIPT"), ("STYLE"), ("LINK"), ("META"), ("BR"), ("NOSCRIPT"), ("TEMPLATE")]

/-- Model of `getMeaningfulChildren`: the element children whose tag is not in the
excluded set (`el.children` already excludes text nodes). -/
def getMeaningfulChildren (l : List Node) : List Node :=
  l.filter (fun n => isElem n && !(excludedTags.contains (tagOf n)))

mutual

/-- Model of `textContent`: concatenation of all descendant text. -/
def textContentN : Node → String
  | .txt s => s
  | .el _ _ ch => textContentL ch

def textContentL : List Node → String
  | [] => ""
  | n :: rest => textContentN n ++ textContentL rest

end

mutual

/-- Model of `querySelector('h1, h2, h3')` on an element: the first match among the
descendants (in document pre-order) whose tag is `h1`, `h2` or `h3` (tag
selectors are case-insensitive for HTML elements). -/
def firstHeadingN : Node → Option Node
  | .txt _ => none
  | .el t a ch =>
    if lowerStr t == ("h1") || lowerStr t == ("h2") || lowerStr t == ("h3") then
      some (.el t a ch)
    else firstHeadingL ch

def firstHeadingL : List Node → Option Node
  | [] => none
  | n :: rest =>
    match firstHeadingN n with
    | some h => some h
    | none => firstHeadingL rest

end

/-- Elements serialized without a closing tag. -/
def voidTags : List String :=
  [("area"), ("base"), ("br"), ("col"), ("embed"), ("hr"), ("img"), ("input"),
   ("link"), ("meta"), ("param"), ("source"), ("track"), ("wbr")]

/-- Elements whose text children are serialized raw (no entity escaping). -/
def rawTextTags : List String :=
  [("style"), ("script"), ("xmp"), ("iframe"), ("noembed"), ("noframes"), ("plaintext")]

def escTextCh (c : Char) : List Char :=
  if c == '&' then ("&amp;").data
  else if c == '<' then ("&lt;").data
  else if c == '>' then ("&gt;").data
  else if c.toNat == 0xA0 then ("&nbsp;").data
  else [c]

def escAttrCh (c : Char) : List Char :=
  if c == '&' then ("&amp;").data
  else if c == '"' then ("&quot;").data
  else if c.toNat == 0xA0 then ("&nbsp;").data
  else [c]

def escText (s : String) : String := String.mk (s.data.flatMap escTextCh)

def escAttr (s : String) : String := String.mk (s.data.flatMap escAttrCh)

def attrsStr (attrs : List (String × String)) : String :=
  attrs.foldr (fun p acc => (" ") ++ p.1 ++ ("=\"") ++ escAttr p.2 ++ ("\"") ++ acc) ""

mutual

/-- Model of `outerHTML` of a node (the HTML fragment serialization of the parsed
tree); `innerL` below is `innerHTML` of a child list. -/
def outerN : Node → String
  | .txt s => escText s
  | .el t attrs ch =>
    ("<") ++ lowerStr t ++ attrsStr attrs ++ (">") ++
      (if voidTags.contains (lowerStr t) then ""
       else (if rawTextTags.contains (lowerStr t) then textContentL ch else innerL ch) ++
         ("</") ++ lowerStr t ++ (">"))

def innerL : List Node → String
  | [] => ""
  | n :: rest => outerN n ++ innerL rest

end

/-! ## The wrapper-peel heuristic -/

/-- Test `/wrapper|container|list|grid|group|collection/.test(cls)`. -/
def isWrapperNameB (cls : String) : Bool :=
  [("wrapper"), ("container"), ("list"), ("grid"), ("group"), ("collection")].any
    (fun w => containsSub w.data cls.data)

/-- Test `/card|slide|page|section|item/` on one child's lower-cased class. -/
def cardClassRe (cls : String) : Bool :=
  [("card"), ("slide"), ("page"), ("section"), ("item")].any
    (fun w => containsSub w.data cls.data)

/-- Model of `innerChildren.some(child => (child.className || '').toLowerCase().match(...))`. -/
def childrenCardB (inner : List Node) : Bool :=
  inner.any (fun c => cardClassRe (lowerStr (className c)))

/-- Model of `innerChildren.every(child => ['SECTION','ARTICLE','ASIDE'].includes(child.tagName))`. -/
def childrenSectionsB (inner : List Node) : Bool :=
  inner.all (fun c => [("SECTION"), ("ARTICLE"), ("ASIDE")].contains (tagOf c))

/-- JS `\w` word character. -/
def isWordChar (c : Char) : Bool :=
  ('a' ≤ c && c ≤ 'z') || ('A' ≤ c && c ≤ 'Z') || ('0' ≤ c && c ≤ '9') || c == '_'

def wbBoundary : Option Char → Bool
  | none => true
  | some c => !isWordChar c

/-- Test `/\bcard\b/.test(s)`: an occurrence of `card` with a word boundary on each
side (a hyphen is a non-word character, so `card-wrapper` matches too). -/
def wbCardAux : Option Char → List Char → Bool
  | _, [] => false
  | prev, c :: cs =>
    (wbBoundary prev && ("card").data.isPrefixOf (c :: cs) &&
      wbBoundary (((c :: cs).drop 4).head?)) ||
    wbCardAux (some c) cs

def wbCard (s : String) : Bool := wbCardAux none s.data

/-- Model of `isCardName`: `/\bcard\b/.test(cls) || cls === 'card'`. -/
def isCardNameB (cls : String) : Bool := wbCard cls || cls == ("card")

/-- The nested-structure handling: when the body has exactly one meaningful
child whose own meaningful children number more than one, decide whether to
descend into the container by the source's heuristics. -/
def peelTargets (targets : List Node) : List Node :=
  match targets with
  | [container] =>
    let inner := getMeaningfulChildren (childrenOf container)
    if 1 < inner.length then
      let cls := lowerStr (className container)
      let shouldDescend :=
        isWrapperNameB cls ||
          ((childrenCardB inner || childrenSectionsB inner) && !(isCardNameB cls))
      if shouldDescend then inner else targets
    else targets
  | _ => targets

/-! ## Titles and artifact generation -/

/-- The heading component of the split-path title:
`child.querySelector('h1, h2, h3')?.textContent?.trim()`, with `""` standing
for the falsy values (no heading, or all-whitespace text). -/
def headingText (child : Node) : String :=
  match firstHeadingL (childrenOf child) with
  | some hd => jsTrimS (textContentN hd)
  | none => ""

/-- The split-path title resolution chain (`||` falls through on `""` and on a
missing attribute). -/
def resolveTitle (child : Node) (childIndex : Nat) : String :=
  if headingText child ≠ "" then headingText child
  else if (getAttr child ("title")).getD "" ≠ "" then (getAttr child ("title")).getD ""
  else if (getAttr child ("aria-label")).getD "" ≠ "" then (getAttr child ("aria-label")).getD ""
  else ("Card ") ++ natToString (childIndex + 1)

/-- The 30-character truncation applied to split-path titles. -/
def truncTitle (t : String) : String :=
  if 30 < t.length then String.mk (t.data.take 30) ++ ("...") else t

/-- One artifact record. -/
structure Artifact where
  id : String
  code : String
  title : String
  type : String
deriving DecidableEq

def mkSplitId (now bi ci : Nat) : String :=
  ("artifact-split-") ++ natToString now ++ ("-") ++ natToString bi ++ ("-") ++ natToString ci

def mkBlockId (now bi : Nat) : String :=
  ("artifact-block-") ++ natToString now ++ ("-") ++ natToString bi

def mkErrId (now bi : Nat) : String :=
  ("artifact-err-") ++ natToString now ++ ("-") ++ natToString bi

/-- The standalone document built for one split target. -/
def splitCodeStr (headContent : String) (child : Node) : String :=
  ("<!DOCTYPE html>\n<html>\n<head>\n  <meta charset=\"UTF-8\">\n  ") ++ headContent ++
  ("\n</head>\n<body style=\"margin:0; padding:0; background: transparent;\">\n  ") ++
  outerN child ++ ("\n</body>\n</html>")

/-- The artifact emitted for the target at (0-based) index `ci` of block `bi`. -/
def splitArtifact (now bi : Nat) (headContent : String) (p : Nat × Node) : Artifact :=
  { id := mkSplitId now bi p.1
    code := splitCodeStr headContent p.2
    title := truncTitle (resolveTitle p.2 p.1)
    type := ("html") }

/-- Model of `forEach` with index, starting at `n`. -/
def enumFromN (n : Nat) : List α → List (Nat × α)
  | [] => []
  | a :: l => (n, a) :: enumFromN (n + 1) l

/-- Processing of one detected block (the body of the per-block `try`).
`none` for the parse models a structural error raised while handling the
block, caught by the per-block `catch`, which degrades to a single
pass-through artifact with a synthesized title. -/
def processBlock (now bi : Nat) (block : String) (parsed : Option HtmlDoc) : List Artifact :=
  match parsed with
  | none =>
    [{ id := mkErrId now bi, code := block,
       title := ("Artifact ") ++ natToString (bi + 1), type := ("html") }]
  | some doc =>
    if 1 < (peelTargets (getMeaningfulChildren doc.bodyChildren)).length then
      (enumFromN 0 (peelTargets (getMeaningfulChildren doc.bodyChildren))).map
        (splitArtifact now bi (innerL doc.headChildren))
    else
      match titleTagMatch block with
      | some t =>
        [{ id := mkBlockId now bi, code := block, title := t, type := ("html") }]
      | none =>
        [{ id := mkBlockId now bi, code := block,
           title := ("Artifact ") ++ natToString (bi + 1), type := ("html") }]

/-- Model of `extractArtifacts`, parameterized by the lenient-parse oracle and by the
`Date.now()` timestamp sampled once per call. -/
def extractArtifacts (parse : String → Option HtmlDoc) (now : Nat) (text : String) :
    List Artifact :=
  (enumFromN 0 (detectBlocks text)).flatMap
    (fun p => processBlock now p.1 p.2 (parse p.2))

/-! ## The preview scoper -/

structure ParsedHtml where
  styles : String
  bodyContent : String
deriving DecidableEq

/-- Greedy `\s*` followed by the literal `body`; returns the rest on success. -/
def matchWsBody (l : List Char) : Option (List Char) :=
  let l' := l.dropWhile (fun c => isJsSpace c)
  if ("body").data.isPrefixOf l' then some (l'.drop 4) else none

/-- One global pass of `styles.replace(/(^|}|,)\s*body/g, "$1 #" + wrapperId)`:
`atStart` records whether the zero-width `^` alternative is still available. -/
def scopeAux (wid : List Char) : Nat → Bool → List Char → List Char
  | 0, _, l => l
  | _ + 1, _, [] => []
  | f + 1, atStart, c :: cs =>
    if atStart then
      match matchWsBody (c :: cs) with
      | some rest => (" #").data ++ wid ++ scopeAux wid f false rest
      | none =>
        if c == '}' || c == ',' then
          match matchWsBody cs with
          | some rest => c :: ((" #").data ++ wid) ++ scopeAux wid f false rest
          | none => c :: scopeAux wid f false cs
        else c :: scopeAux wid f false cs
    else
      if c == '}' || c == ',' then
        match matchWsBody cs with
        | some rest => c :: ((" #").data ++ wid) ++ scopeAux wid f false rest
        | none => c :: scopeAux wid f false cs
      else c :: scopeAux wid f false cs

/-- The CSS selector rewrite of `parseHtmlForPreview`. -/
def scopeBodySelectors (styles wrapperId : String) : String :=
  String.mk (scopeAux wrapperId.data (styles.data.length + 1) true styles.data)

mutual

/-- Model of `document.querySelectorAll('style')` in document order, each mapped to its
inner text (`innerHTML` of a raw-text element is its text content). -/
def stylesN : Node → List String
  | .txt _ => []
  | .el t _ ch =>
    (if lowerStr t == ("style") then [textContentL ch] else []) ++ stylesL ch

def stylesL : List Node → List String
  | [] => []
  | n :: rest => stylesN n ++ stylesL rest

end

/-- Model of `join('\n')`. -/
def joinNl : List String → String
  | [] => ""
  | [s] => s
  | s :: rest => s ++ ("\n") ++ joinNl rest

/-- Model of `parseHtmlForPreview` on the parsed document of the artifact's code. -/
def parseHtmlForPreview (doc : HtmlDoc) (wrapperId : String) : ParsedHtml :=
  let styles := joinNl (stylesL (doc.headChildren ++ doc.bodyChildren))
  { styles := scopeBodySelectors styles wrapperId
    bodyContent := innerL doc.bodyChildren }

/-! ## Analysis helpers (not part of the embedded program) -/

/-- The numeric value of a digit string; inverse of `natStrD` on its image. -/
def valOf (l : List Char) : Nat :=
  l.foldl (fun a c => a * 10 + (c.toNat - 48)) 0

/-- Split a character list at every `-` (used to read the components back out
of a generated artifact id). -/
def splitDash : List Char → List (List Char)
  | [] => [[]]
  | c :: rest =>
    if c = '-' then [] :: splitDash rest
    else
      match splitDash rest with
      | s :: ss => (c :: s) :: ss
      | [] => [[c]]

/-- The block-index component of a generated artifact id (component 3 of the
dash-separated id). -/
def decodeBi (s : String) : Option (List Char) := (splitDash s.data).get? 3

/-- The title-resolution order of the split path, as the spec describes it:
first non-blank descendant-heading text, else a non-empty `title` attribute,
else a non-empty `aria-label` attribute, else the synthesized `Card {i+1}`. -/
def TitleSpec (c : Node) (i : Nat) (t : String) : Prop :=
  (headingText c ≠ "" ∧ t = headingText c) ∨
  (headingText c = "" ∧ (getAttr c ("title")).getD "" ≠ "" ∧
    t = (getAttr c ("title")).getD "") ∨
  (headingText c = "" ∧ (getAttr c ("title")).getD "" = "" ∧
    (getAttr c ("aria-label")).getD "" ≠ "" ∧ t = (getAttr c ("aria-label")).getD "") ∨
  (headingText c = "" ∧ (getAttr c ("title")).getD "" = "" ∧
    (getAttr c ("aria-label")).getD "" = "" ∧ t = ("Card ") ++ natToString (i + 1))

/-! ## Concrete data for witnesses and counterexamples -/

/-- A parse oracle that fails on every block (models a structural error). -/
def wParseNone : String → Option HtmlDoc := fun _ => none

/-- The empty parsed document. -/
def wEmptyDoc : HtmlDoc := ⟨[], []⟩

/-- Forty characters, longer than the 30+3 title bound. -/
def cexTitle40 : String := ("AAAAAAAAAAAAAAAAAAAAAAAAAAAAAAAAAAAAAAAA")

/-- A block whose `<title>` content has 40 characters. -/
def cexBlockC1 : String := ("<title>") ++ cexTitle40 ++ ("</title>")

/-- A fenced input whose single block carries the 40-character title. -/
def cexInputC1 : String := ("```html\n<title>") ++ cexTitle40 ++ ("</title>\n```")

/-- What the lenient parse produces for `cexBlockC1`: the title element goes
to the head, the body is empty. -/
def cexDocC1 : HtmlDoc := ⟨[Node.el ("TITLE") [] [Node.txt cexTitle40]], []⟩

def cexParseC1 : String → Option HtmlDoc := fun _ => some cexDocC1

/-- A parsed document holding exactly the spec's example style sheet. -/
def previewDocC2 : HtmlDoc :=
  ⟨[Node.el ("STYLE") [] [Node.txt ("body{color:red} .x{}")]], []⟩

def secA : Node := .el ("SECTION") [(("class"), ("card"))] [.txt ("A")]

def secB : Node := .el ("SECTION") [(("class"), ("card"))] [.txt ("B")]

/-- A `card-wrapper` container bundling two card sections. -/
def wrapW : Node := .el ("DIV") [(("class"), ("card-wrapper"))] [secA, secB]

def docWrapW : HtmlDoc := ⟨[], [wrapW]⟩

/-- A container whose class is exactly `card`, with two inner parts. -/
def cardOnly : Node :=
  .el ("DIV") [(("class"), ("card"))]
    [.el ("DIV") [(("class"), ("card-header"))] [.txt ("X")],
     .el ("DIV") [(("class"), ("card-body"))] [.txt ("Y")]]

def docCardOnly : HtmlDoc := ⟨[], [cardOnly]⟩

/-- A body with two meaningful children (split without any peel). -/
def docTwo : HtmlDoc :=
  ⟨[], [.el ("DIV") [] [.txt ("A")], .el ("DIV") [] [.txt ("B")]]⟩

def textW5 : String := ("<div>a</div>")

/-- An oracle agreeing with `wParseNone` away from `textW5` but succeeding
on it. -/
def qW5 : String → Option HtmlDoc := fun s => if s = textW5 then some wEmptyDoc else none

def textW7 : String := ("```html\n<p>x</p>\n```")

/-! ## Basic string lemmas -/

theorem data_append (a b : String) : (a ++ b).data = a.data ++ b.data := rfl

theorem mk_data (l : List Char) : (String.mk l).data = l := rfl

theorem strLen (s : String) : s.length = s.data.length := rfl

theorem mk_inj {a b : List Char} (h : String.mk a = String.mk b) : a = b :=
  congrArg String.data h

theorem strLen_append (a b : String) : (a ++ b).length = a.length + b.length :=
  List.length_append a.data b.data

theorem ne_empty_of_length_ne {s : String} (h : s.length ≠ 0) : s ≠ "" := by
  intro he
  exact h (by simp [he])

/-! ## Decimal rendering lemmas -/

theorem digitCh_toNat (d : Nat) : (digitCh d).toNat = 48 + d % 10 := by
  have h : d % 10 < 10 := Nat.mod_lt _ (by omega)
  unfold digitCh
  set m := d % 10 with hm
  interval_cases m <;> rfl

theorem natStrGo_eq : ∀ (f n : Nat) (acc : List Char), n < 10 ^ (f + 1) →
    natStrGo (f + 1) n acc = natStrD n ++ acc := by
  intro f
  induction f with
  | zero =>
    intro n acc h
    have hn : n < 10 := by simpa using h
    rw [natStrD]
    simp [natStrGo, hn]
  | succ g ih =>
    intro n acc h
    by_cases hn : n < 10
    · rw [natStrD]
      simp [natStrGo, hn]
    · have hdiv : n / 10 < 10 ^ (g + 1) := by
        have h10 : 10 ^ (g + 1 + 1) = 10 * 10 ^ (g + 1) := by ring
        rw [h10] at h
        exact Nat.div_lt_of_lt_mul h
      have step : natStrGo (g + 1 + 1) n acc =
          natStrGo (g + 1) (n / 10) (digitCh (n % 10) :: acc) := by
        simp [natStrGo, hn]
      rw [step, ih _ _ hdiv]
      conv_rhs => rw [natStrD]
      simp [hn, List.append_assoc]

theorem natStr_eq (n : Nat) : natStr n = natStrD n := by
  have h : n < 10 ^ (n + 1) := by
    calc n < 2 ^ n := Nat.lt_two_pow n
    _ ≤ 10 ^ n := Nat.pow_le_pow_left (by omega) n
    _ ≤ 10 ^ (n + 1) := Nat.pow_le_pow_right (by omega) (by omega)
  have := natStrGo_eq n n [] h
  simpa [natStr] using this

theorem valOf_natStrD : ∀ n : Nat, valOf (natStrD n) = n := by
  intro n
  induction n using Nat.strong_induction_on with
  | _ n ih =>
  rw [natStrD]
  by_cases h : n < 10
  · simp only [h, dite_true]
    simp only [valOf, List.foldl_cons, List.foldl_nil]
    rw [digitCh_toNat]
    omega
  · have hlt : n / 10 < n := Nat.div_lt_self (by omega) (by omega)
    simp only [h, dite_false]
    have hv : valOf (natStrD (n / 10) ++ [digitCh (n % 10)]) =
        valOf (natStrD (n / 10)) * 10 + ((digitCh (n % 10)).toNat - 48) := by
      simp [valOf, List.foldl_append]
    rw [hv, ih _ hlt, digitCh_toNat]
    omega

theorem natStr_inj {a b : Nat} (h : natStr a = natStr b) : a = b := by
  rw [natStr_eq, natStr_eq] at h
  have := congrArg valOf h
  rwa [valOf_natStrD, valOf_natStrD] at this

theorem natToString_inj {a b : Nat} (h : natToString a = natToString b) : a = b :=
  natStr_inj (mk_inj h)

theorem natStrD_digits : ∀ n : Nat, ∀ c ∈ natStrD n, 48 ≤ c.toNat ∧ c.toNat ≤ 57 := by
  intro n
  induction n using Nat.strong_induction_on with
  | _ n ih =>
  rw [natStrD]
  by_cases h : n < 10
  · simp only [h, dite_true]
    intro c hc
    simp at hc
    subst hc
    rw [digitCh_toNat]
    omega
  · have hlt : n / 10 < n := Nat.div_lt_self (by omega) (by omega)
    simp only [h, dite_false]
    intro c hc
    rcases List.mem_append.mp hc with hc | hc
    · exact ih _ hlt c hc
    · simp at hc
      subst hc
      rw [digitCh_toNat]
      omega

theorem natStr_no_dash {n : Nat} : ∀ c ∈ natStr n, c ≠ '-' := by
  rw [natStr_eq]
  intro c hc he
  have := natStrD_digits n c hc
  subst he
  simp at this

/-! ## Enumeration lemmas -/

theorem enumFromN_length (n : Nat) (l : List α) : (enumFromN n l).length = l.length := by
  induction l generalizing n with
  | nil => rfl
  | cons a t ih => simp [enumFromN, ih]

theorem enumFromN_get? (n : Nat) (l : List α) (i : Nat) :
    (enumFromN n l).get? i = (l.get? i).map (fun a => (n + i, a)) := by
  induction l generalizing n i with
  | nil => simp [enumFromN]
  | cons a t ih =>
    cases i with
    | zero => simp [enumFromN]
    | succ j =>
      have harith : n + 1 + j = n + (j + 1) := by omega
      have hh := ih (n + 1) j
      rw [harith] at hh
      exact hh

theorem mem_enumFromN {n : Nat} {l : List α} {p : Nat × α} (h : p ∈ enumFromN n l) :
    n ≤ p.1 ∧ l.get? (p.1 - n) = some p.2 := by
  induction l generalizing n with
  | nil => simp [enumFromN] at h
  | cons a t ih =>
    simp only [enumFromN, List.mem_cons] at h
    rcases h with h | h
    · subst h
      simp
    · have hrec := ih h
      refine ⟨by omega, ?_⟩
      have h2 : p.1 - n = (p.1 - (n + 1)) + 1 := by omega
      rw [h2]
      simpa using hrec.2

theorem enumFromN_decomp {l : List α} {i : Nat} {b : α} (h : l.get? i = some b) :
    ∀ n : Nat, enumFromN n l =
      enumFromN n (l.take i) ++ (n + i, b) :: enumFromN (n + i + 1) (l.drop (i + 1)) := by
  induction i generalizing l with
  | zero =>
    intro n
    cases l with
    | nil => simp at h
    | cons a t =>
      simp at h
      subst h
      simp [enumFromN]
  | succ j ih =>
    intro n
    cases l with
    | nil => simp at h
    | cons a t =>
      have h' : t.get? j = some b := by simpa using h
      have harith1 : n + 1 + j = n + (j + 1) := by omega
      have harith2 : n + 1 + j + 1 = n + (j + 1) + 1 := by omega
      calc enumFromN n (a :: t) = (n, a) :: enumFromN (n + 1) t := rfl
      _ = (n, a) :: (enumFromN (n + 1) (t.take j) ++
            (n + 1 + j, b) :: enumFromN (n + 1 + j + 1) (t.drop (j + 1))) := by
            rw [ih h' (n + 1)]
      _ = enumFromN n ((a :: t).take (j + 1)) ++
            (n + (j + 1), b) :: enumFromN (n + (j + 1) + 1) ((a :: t).drop (j + 1 + 1)) := by
            simp [enumFromN, harith1, harith2]

theorem flatMap_congr {l : List α} {f g : α → List β} (h : ∀ a ∈ l, f a = g a) :
    l.flatMap f = l.flatMap g := by
  induction l with
  | nil => rfl
  | cons a t ih =>
    simp only [List.flatMap_cons]
    rw [h a (by simp), ih (fun x hx => h x (by simp [hx]))]

/-! ## Reading components back out of artifact ids -/

theorem splitDash_no_dash : ∀ x : List Char, (∀ c ∈ x, c ≠ '-') → splitDash x = [x] := by
  intro x
  induction x with
  | nil => intro _; rfl
  | cons c t ih =>
    intro h
    have hc : c ≠ '-' := h c (by simp)
    simp only [splitDash, hc, if_false]
    rw [ih (fun d hd => h d (by simp [hd]))]

theorem splitDash_append : ∀ x r : List Char, (∀ c ∈ x, c ≠ '-') →
    splitDash (x ++ '-' :: r) = x :: splitDash r := by
  intro x
  induction x with
  | nil =>
    intro r _
    simp [splitDash]
  | cons c t ih =>
    intro r h
    have hc : c ≠ '-' := h c (by simp)
    have hrec := ih r (fun d hd => h d (by simp [hd]))
    simp only [List.cons_append, splitDash, hc, if_false, List.append_eq]
    rw [hrec]

theorem decodeBi_mkErrId (now bi : Nat) : decodeBi (mkErrId now bi) = some (natStr bi) := by
  have hd : (mkErrId now bi).data =
      ("artifact").data ++ '-' :: (("err").data ++ '-' :: (natStr now ++ '-' :: natStr bi)) := by
    simp only [mkErrId, natToString, data_append, mk_data, List.append_assoc]
    rfl
  rw [decodeBi, hd, splitDash_append _ _ (by decide),
    splitDash_append _ _ (by decide),
    splitDash_append _ _ (fun c hc => natStr_no_dash c hc),
    splitDash_no_dash _ (fun c hc => natStr_no_dash c hc)]
  rfl

theorem decodeBi_mkBlockId (now bi : Nat) : decodeBi (mkBlockId now bi) = some (natStr bi) := by
  have hd : (mkBlockId now bi).data =
      ("artifact").data ++ '-' :: (("block").data ++ '-' :: (natStr now ++ '-' :: natStr bi)) := by
    simp only [mkBlockId, natToString, data_append, mk_data, List.append_assoc]
    rfl
  rw [decodeBi, hd, splitDash_append _ _ (by decide),
    splitDash_append _ _ (by decide),
    splitDash_append _ _ (fun c hc => natStr_no_dash c hc),
    splitDash_no_dash _ (fun c hc => natStr_no_dash c hc)]
  rfl

theorem decodeBi_mkSplitId (now bi ci : Nat) :
    decodeBi (mkSplitId now bi ci) = some (natStr bi) := by
  have hd : (mkSplitId now bi ci).data =
      ("artifact").data ++ '-' :: (("split").data ++ '-' ::
        (natStr now ++ '-' :: (natStr bi ++ '-' :: natStr ci))) := by
    simp only [mkSplitId, natToString, data_append, mk_data, List.append_assoc]
    rfl
  rw [decodeBi, hd, splitDash_append _ _ (by decide),
    splitDash_append _ _ (by decide),
    splitDash_append _ _ (fun c hc => natStr_no_dash c hc),
    splitDash_append _ _ (fun c hc => natStr_no_dash c hc),
    splitDash_no_dash _ (fun c hc => natStr_no_dash c hc)]
  rfl

theorem mkSplitId_inj_ci {now bi c1 c2 : Nat} (h : mkSplitId now bi c1 = mkSplitId now bi c2) :
    c1 = c2 := by
  have hd := congrArg String.data h
  simp only [mkSplitId, natToString, data_append, mk_data, List.append_assoc] at hd
  replace hd := List.append_cancel_left hd
  replace hd := List.append_cancel_left hd
  replace hd := List.append_cancel_left hd
  replace hd := List.append_cancel_left hd
  replace hd := List.append_cancel_left hd
  exact natStr_inj hd

/-! ## Per-block processing lemmas -/

theorem nodup_map_fst_enum {α β : Type} (g : Nat → β) (hg : ∀ i j, g i = g j → i = j) :
    ∀ (n : Nat) (l : List α), ((enumFromN n l).map (fun p => g p.1)).Nodup := by
  intro n l
  induction l generalizing n with
  | nil => simp [enumFromN]
  | cons a t ih =>
    simp only [enumFromN, List.map_cons, List.nodup_cons]
    refine ⟨?_, ih (n + 1)⟩
    intro hmem
    rcases List.mem_map.mp hmem with ⟨p, hp, he⟩
    have h1 := (mem_enumFromN hp).1
    have h2 := hg _ _ he
    omega

theorem processBlock_decode (now bi : Nat) (block : String) (parsed : Option HtmlDoc) :
    ∀ a ∈ processBlock now bi block parsed, decodeBi a.id = some (natStr bi) := by
  intro a ha
  cases parsed with
  | none =>
    simp [processBlock] at ha
    subst ha
    exact decodeBi_mkErrId now bi
  | some doc =>
    by_cases hlen : 1 < (peelTargets (getMeaningfulChildren doc.bodyChildren)).length
    · simp only [processBlock, if_pos hlen] at ha
      rcases List.mem_map.mp ha with ⟨p, _, hp⟩
      subst hp
      exact decodeBi_mkSplitId now bi p.1
    · simp only [processBlock, if_neg hlen] at ha
      rcases htm : titleTagMatch block with _ | t <;> rw [htm] at ha <;> simp at ha <;>
        subst ha
      · exact decodeBi_mkBlockId now bi
      · exact decodeBi_mkBlockId now bi

theorem processBlock_ids_nodup (now bi : Nat) (block : String) (parsed : Option HtmlDoc) :
    ((processBlock now bi block parsed).map (fun a => a.id)).Nodup := by
  cases parsed with
  | none => simp [processBlock]
  | some doc =>
    by_cases hlen : 1 < (peelTargets (getMeaningfulChildren doc.bodyChildren)).length
    · simp only [processBlock, if_pos hlen]
      rw [List.map_map]
      have hcomp : ((fun a : Artifact => a.id) ∘
          splitArtifact now bi (innerL doc.headChildren)) =
          fun p : Nat × Node => mkSplitId now bi p.1 := rfl
      rw [hcomp]
      exact nodup_map_fst_enum _ (fun i j h => mkSplitId_inj_ci h) 0 _
    · simp only [processBlock, if_neg hlen]
      rcases htm : titleTagMatch block with _ | t <;> simp [htm]

theorem extract_ids_nodup_aux (parse : String → Option HtmlDoc) (now : Nat) :
    ∀ (bs : List String) (n : Nat),
      (((enumFromN n bs).flatMap (fun p => processBlock now p.1 p.2 (parse p.2))).map
        (fun a => a.id)).Nodup := by
  intro bs
  induction bs with
  | nil => intro n; simp [enumFromN]
  | cons b t ih =>
    intro n
    simp only [enumFromN, List.flatMap_cons, List.map_append]
    rw [List.nodup_append]
    refine ⟨processBlock_ids_nodup now n b (parse b), ih (n + 1), ?_⟩
    intro x hx1 hx2
    rcases List.mem_map.mp hx1 with ⟨a, ha, hxa⟩
    rcases List.mem_map.mp hx2 with ⟨a2, ha2, hxa2⟩
    rcases List.mem_flatMap.mp ha2 with ⟨p, hp, hap⟩
    have d1 := processBlock_decode now n b (parse b) a ha
    have d2 := processBlock_decode now p.1 p.2 (parse p.2) a2 hap
    rw [hxa] at d1
    rw [hxa2] at d2
    rw [d1] at d2
    have heq := natStr_inj (Option.some.inj d2)
    have hj := (mem_enumFromN hp).1
    omega

theorem processBlock_fields_indep (n1 n2 bi : Nat) (block : String)
    (parsed : Option HtmlDoc) :
    (processBlock n1 bi block parsed).map (fun a => a.code) =
      (processBlock n2 bi block parsed).map (fun a => a.code) ∧
    (processBlock n1 bi block parsed).map (fun a => a.title) =
      (processBlock n2 bi block parsed).map (fun a => a.title) := by
  cases parsed with
  | none => simp [processBlock]
  | some doc =>
    by_cases hlen : 1 < (peelTargets (getMeaningfulChildren doc.bodyChildren)).length
    · simp only [processBlock, if_pos hlen]
      constructor <;> rw [List.map_map, List.map_map] <;> rfl
    · simp only [processBlock, if_neg hlen]
      rcases htm : titleTagMatch block with _ | t <;> simp [htm]

theorem extract_fields_aux (parse : String → Option HtmlDoc) (n1 n2 : Nat) :
    ∀ (bs : List String) (n : Nat),
      ((enumFromN n bs).flatMap (fun p => processBlock n1 p.1 p.2 (parse p.2))).map
          (fun a => a.code) =
        ((enumFromN n bs).flatMap (fun p => processBlock n2 p.1 p.2 (parse p.2))).map
          (fun a => a.code) ∧
      ((enumFromN n bs).flatMap (fun p => processBlock n1 p.1 p.2 (parse p.2))).map
          (fun a => a.title) =
        ((enumFromN n bs).flatMap (fun p => processBlock n2 p.1 p.2 (parse p.2))).map
          (fun a => a.title) := by
  intro bs
  induction bs with
  | nil => intro n; simp [enumFromN]
  | cons b t ih =>
    intro n
    simp only [enumFromN, List.flatMap_cons, List.map_append]
    have hb := processBlock_fields_indep n1 n2 n b (parse b)
    have ht := ih (n + 1)
    exact ⟨by rw [hb.1, ht.1], by rw [hb.2, ht.2]⟩

theorem processBlock_codes_single (now bi : Nat) (block : String) (parsed : Option HtmlDoc)
    (h : ∀ doc, parsed = some doc →
      (peelTargets (getMeaningfulChildren doc.bodyChildren)).length ≤ 1) :
    (processBlock now bi block parsed).map (fun a => a.code) = [block] := by
  cases parsed with
  | none => simp [processBlock]
  | some doc =>
    have hlen : ¬ 1 < (peelTargets (getMeaningfulChildren doc.bodyChildren)).length := by
      have := h doc rfl
      omega
    simp only [processBlock, if_neg hlen]
    rcases htm : titleTagMatch block with _ | t <;> simp [htm]

theorem extract_codes_aux (parse : String → Option HtmlDoc) (now : Nat) :
    ∀ (bs : List String) (n : Nat),
      (∀ b ∈ bs, ∀ doc, parse b = some doc →
        (peelTargets (getMeaningfulChildren doc.bodyChildren)).length ≤ 1) →
      ((enumFromN n bs).flatMap (fun p => processBlock now p.1 p.2 (parse p.2))).map
        (fun a => a.code) = bs := by
  intro bs
  induction bs with
  | nil => intro n _; simp [enumFromN]
  | cons b t ih =>
    intro n h
    simp only [enumFromN, List.flatMap_cons, List.map_append]
    rw [processBlock_codes_single now n b (parse b) (fun doc hd => h b (by simp) doc hd),
      ih (n + 1) (fun x hx doc hd => h x (by simp [hx]) doc hd)]
    rfl

/-! ## Title lemmas -/

theorem resolveTitle_ne (c : Node) (i : Nat) : resolveTitle c i ≠ "" := by
  unfold resolveTitle
  split_ifs with h1 h2 h3
  · exact h1
  · exact h2
  · exact h3
  · apply ne_empty_of_length_ne
    rw [strLen_append]
    have h5 : ("Card " : String).length = 5 := rfl
    omega

theorem resolveTitle_spec (c : Node) (i : Nat) : TitleSpec c i (resolveTitle c i) := by
  unfold TitleSpec resolveTitle
  split_ifs with h1 h2 h3
  · exact Or.inl ⟨h1, rfl⟩
  · exact Or.inr (Or.inl ⟨not_ne_iff.mp h1, h2, rfl⟩)
  · exact Or.inr (Or.inr (Or.inl ⟨not_ne_iff.mp h1, not_ne_iff.mp h2, h3, rfl⟩))
  · exact Or.inr (Or.inr (Or.inr
      ⟨not_ne_iff.mp h1, not_ne_iff.mp h2, not_ne_iff.mp h3, rfl⟩))

theorem truncTitle_spec (t : String) (ht : t ≠ "") :
    truncTitle t ≠ "" ∧
      ((truncTitle t).length ≤ 30 ∨
        ((truncTitle t).length = 33 ∧
          ∃ u : String, 30 < u.length ∧ truncTitle t = String.mk (u.data.take 30) ++ ("..."))) := by
  unfold truncTitle
  by_cases h : 30 < t.length
  · rw [if_pos h]
    have hlen : (String.mk (t.data.take 30) ++ ("..." : String)).length = 33 := by
      rw [strLen_append]
      have h30 : (String.mk (t.data.take 30)).length = 30 := by
        show (t.data.take 30).length = 30
        rw [List.length_take]
        have hd : 30 < t.data.length := h
        omega
      rw [h30]
      rfl
    refine ⟨ne_empty_of_length_ne (by omega), Or.inr ⟨hlen, t, h, rfl⟩⟩
  · rw [if_neg h]
    exact ⟨ht, Or.inl (by omega)⟩

/-! ## Block detection lemmas -/

theorem detectBlocks_md {text : String} {bs : List String} (hmd : mdBlocks text = bs)
    (hne : bs ≠ []) : detectBlocks text = bs := by
  unfold detectBlocks
  rw [hmd, if_pos (List.length_pos.mpr hne)]

theorem detectBlocks_fallback {text : String} (h1 : mdBlocks text = [])
    (h2 : rawBlocks text = []) :
    detectBlocks text =
      (if hasTagPattern (jsTrimS text).data &&
          (containsSub ("<div".data) (jsTrimS text).data ||
            containsSub ("<style".data) (jsTrimS text).data)
       then [jsTrimS text] else []) := by
  unfold detectBlocks
  rw [h1, h2]
  simp

/-! ## Claim theorems -/

/-- C8: within the artifact list returned by any single call to
`extractArtifacts`, all `id` fields are pairwise distinct, across the split,
no-split and error-fallback generation paths. -/
theorem C8_extract_ids_nodup (parse : String → Option HtmlDoc) (now : Nat) (text : String) :
    ((extractArtifacts parse now text).map (fun a => a.id)).Nodup := by
  unfold extractArtifacts
  exact extract_ids_nodup_aux parse now (detectBlocks text) 0

/-- C9: two runs of `extractArtifacts` on identical text (differing only in
the sampled timestamp) yield artifact lists of equal length with pairwise
identical `code` and `title` fields. -/
theorem C9_deterministic (parse : String → Option HtmlDoc) (now1 now2 : Nat) (text : String) :
    (extractArtifacts parse now1 text).length = (extractArtifacts parse now2 text).length ∧
    (extractArtifacts parse now1 text).map (fun a => a.code) =
      (extractArtifacts parse now2 text).map (fun a => a.code) ∧
    (extractArtifacts parse now1 text).map (fun a => a.title) =
      (extractArtifacts parse now2 text).map (fun a => a.title) := by
  unfold extractArtifacts
  have h := extract_fields_aux parse now1 now2 (detectBlocks text) 0
  refine ⟨?_, h.1, h.2⟩
  have hl := congrArg List.length h.1
  simpa using hl

/-- C6: when no detection tier matches (no fenced block, no raw document
span, and the bare-fragment test fails), extraction returns the empty list. -/
theorem C6_no_content (parse : String → Option HtmlDoc) (now : Nat) (text : String)
    (h1 : mdBlocks text = []) (h2 : rawBlocks text = [])
    (h3 : (hasTagPattern (jsTrimS text).data &&
      (containsSub ("<div".data) (jsTrimS text).data ||
        containsSub ("<style".data) (jsTrimS text).data)) = false) :
    extractArtifacts parse now text = [] := by
  have hdb : detectBlocks text = [] := by
    rw [detectBlocks_fallback h1 h2, h3]
    rfl
  unfold extractArtifacts
  rw [hdb]
  rfl

/-- C6 witness: on plain prose, every tier fails and the result is empty. -/
theorem C6_no_content_witness : extractArtifacts wParseNone 0 ("hello world") = [] :=
  C6_no_content wParseNone 0 ("hello world") (by decide) (by decide) (by decide)

/-- C7: for markdown input whose fenced ```` ```html ```` blocks are `bs`
(non-empty) and none of which triggers the split branch, extraction returns
exactly one artifact per fence, in fence order, with `code` equal to the
fence's trimmed inner content. -/
theorem C7_fences (parse : String → Option HtmlDoc) (now : Nat) (text : String)
    (bs : List String) (hmd : mdBlocks text = bs) (hne : bs ≠ [])
    (hns : ∀ b ∈ bs, ∀ doc, parse b = some doc →
      (peelTargets (getMeaningfulChildren doc.bodyChildren)).length ≤ 1) :
    (extractArtifacts parse now text).map (fun a => a.code) = bs ∧
    (extractArtifacts parse now text).length = bs.length := by
  have hdb : detectBlocks text = bs := detectBlocks_md hmd hne
  unfold extractArtifacts
  rw [hdb]
  have hcodes := extract_codes_aux parse now bs 0 hns
  refine ⟨hcodes, ?_⟩
  have hl := congrArg List.length hcodes
  simpa using hl

/-- C7 witness: a single fence, parse failing (no split possible), yields one
artifact whose code is the fence's trimmed content. -/
theorem C7_fences_witness :
    (extractArtifacts wParseNone 0 textW7).map (fun a => a.code) = [("<p>x</p>")] ∧
    (extractArtifacts wParseNone 0 textW7).length = ([("<p>x</p>")] : List String).length :=
  C7_fences wParseNone 0 textW7 [("<p>x</p>")] (by decide) (by decide)
    (fun b _ doc hd => by simp [wParseNone] at hd)

/-- C10: the bare-fragment tier is case-sensitive: when tiers 1 and 2 fail,
the input becomes a block only if the trimmed text contains the lower-case
substring `<div` or `<style`; the all-uppercase `<DIV class="x">hi</DIV>`
yields no artifacts even though it contains a div tag. -/
theorem C10_case_sensitive :
    (∀ text : String, mdBlocks text = [] → rawBlocks text = [] →
      detectBlocks text ≠ [] →
      containsSub ("<div".data) (jsTrimS text).data = true ∨
        containsSub ("<style".data) (jsTrimS text).data = true) ∧
    (∀ (parse : String → Option HtmlDoc) (now : Nat),
      extractArtifacts parse now ("<DIV class=\"x\">hi</DIV>") = []) ∧
    containsSub ("<DIV".data) (jsTrimS ("<DIV class=\"x\">hi</DIV>")).data = true := by
  refine ⟨?_, ?_, by decide⟩
  · intro text h1 h2 hne
    rw [detectBlocks_fallback h1 h2] at hne
    by_cases hc : (hasTagPattern (jsTrimS text).data &&
        (containsSub ("<div".data) (jsTrimS text).data ||
          containsSub ("<style".data) (jsTrimS text).data)) = true
    · simp only [Bool.and_eq_true, Bool.or_eq_true] at hc
      exact hc.2
    · rw [if_neg hc] at hne
      exact absurd rfl hne
  · intro parse now
    have hdb : detectBlocks ("<DIV class=\"x\">hi</DIV>") = [] := by decide
    unfold extractArtifacts
    rw [hdb]
    rfl

/-- C10 witness: on the lowercase fragment the first part applies and yields
the `<div` disjunct. -/
theorem C10_case_sensitive_witness :
    containsSub ("<div".data) (jsTrimS ("<div>a</div>")).data = true ∨
      containsSub ("<style".data) (jsTrimS ("<div>a</div>")).data = true :=
  C10_case_sensitive.1 ("<div>a</div>") (by decide) (by decide) (by decide)

/-- C1 counterexample: a block whose `<title>` content has 40 characters
produces (through the no-split path) an artifact whose title has 40
characters — longer than the 33-character bound the claim asserts, and not
of the 30-plus-ellipsis shape.  The oracle returns what the lenient parse
produces for this block (title element in the head, empty body). -/
theorem C1_counterexample :
    ∃ a ∈ extractArtifacts cexParseC1 0 cexInputC1, 33 < a.title.length := by decide

/-- C1 (amended): every artifact produced by the split path carries a
non-empty title of at most 30 characters, or the first 30 characters of the
resolved title followed by a 3-character ellipsis (33 in total); artifacts of
the no-split and error paths instead carry either the raw (untruncated,
possibly empty or over-long) content of a `<title>` tag matched in the block,
or the synthesized `Artifact {blockIndex+1}`. -/
theorem C1_title_amended (parse : String → Option HtmlDoc) (now : Nat) (text : String)
    (a : Artifact) (ha : a ∈ extractArtifacts parse now text) :
    (a.title ≠ "" ∧
      (a.title.length ≤ 30 ∨
        (a.title.length = 33 ∧
          ∃ u : String, 30 < u.length ∧ a.title = String.mk (u.data.take 30) ++ ("...")))) ∨
    (∃ bi block, (bi, block) ∈ enumFromN 0 (detectBlocks text) ∧
      (titleTagMatch block = some a.title ∨
        a.title = ("Artifact ") ++ natToString (bi + 1))) := by
  unfold extractArtifacts at ha
  rcases List.mem_flatMap.mp ha with ⟨p, hp, hmem⟩
  rcases hparse : parse p.2 with _ | doc
  · rw [hparse] at hmem
    simp [processBlock] at hmem
    right
    subst hmem
    exact ⟨p.1, p.2, hp, Or.inr rfl⟩
  · rw [hparse] at hmem
    by_cases hlen : 1 < (peelTargets (getMeaningfulChildren doc.bodyChildren)).length
    · simp only [processBlock, if_pos hlen] at hmem
      rcases List.mem_map.mp hmem with ⟨q, _, hq⟩
      subst hq
      left
      exact truncTitle_spec _ (resolveTitle_ne q.2 q.1)
    · simp only [processBlock, if_neg hlen] at hmem
      rcases htm : titleTagMatch p.2 with _ | t <;> rw [htm] at hmem <;> simp at hmem <;>
        subst hmem
      · exact Or.inr ⟨p.1, p.2, hp, Or.inr rfl⟩
      · exact Or.inr ⟨p.1, p.2, hp, Or.inl (by rw [htm])⟩

/-- C1 witness: the amended statement instantiated on a failing block. -/
theorem C1_title_amended_witness :
    ((Artifact.mk (mkErrId 0 0) ("<div></div>") (("Artifact ") ++ natToString 1)
        ("html")).title ≠ "" ∧
      ((Artifact.mk (mkErrId 0 0) ("<div></div>") (("Artifact ") ++ natToString 1)
          ("html")).title.length ≤ 30 ∨
        ((Artifact.mk (mkErrId 0 0) ("<div></div>") (("Artifact ") ++ natToString 1)
            ("html")).title.length = 33 ∧
          ∃ u : String, 30 < u.length ∧
            (Artifact.mk (mkErrId 0 0) ("<div></div>") (("Artifact ") ++ natToString 1)
              ("html")).title = String.mk (u.data.take 30) ++ ("...")))) ∨
    (∃ bi block, (bi, block) ∈ enumFromN 0 (detectBlocks ("<div></div>")) ∧
      (titleTagMatch block =
          some (Artifact.mk (mkErrId 0 0) ("<div></div>")
            (("Artifact ") ++ natToString 1) ("html")).title ∨
        (Artifact.mk (mkErrId 0 0) ("<div></div>") (("Artifact ") ++ natToString 1)
            ("html")).title = ("Artifact ") ++ natToString (bi + 1))) :=
  C1_title_amended wParseNone 0 ("<div></div>") _ (by decide)

/-- C2 counterexample: on the spec's own example (style text
`body{color:red} .x{}`, wrapper id `p1`) the rewrite does not produce
exactly `#p1{color:red} .x{}` — the replacement template `$1 #id` inserts a
space, so the output starts with one. -/
theorem C2_counterexample :
    (parseHtmlForPreview previewDocC2 ("p1")).styles ≠ ("#p1{color:red} .x{}") := by decide

/-- C2 (amended): each occurrence of the token `body` whose nearest
non-whitespace predecessor is start-of-text, `}` or `,` is replaced by the
anchor followed by one space, `#` and the wrapper id (intervening whitespace
collapses into that one space); the example yields ` #p1{color:red} .x{}`
with a leading space, and `.bodyish{}` is untouched. -/
theorem C2_scope_amended :
    (parseHtmlForPreview previewDocC2 ("p1")).styles = (" #p1{color:red} .x{}") ∧
    scopeBodySelectors ("body{color:red} .x{}") ("p1") = (" #p1{color:red} .x{}") ∧
    scopeBodySelectors (".bodyish{}") ("p1") = (".bodyish{}") ∧
    scopeBodySelectors ("h1\x7b\x7d , \n body \x7bx\x7d .a\x7b\x7d \x7dbody\x7b\x7d") ("w") =
      ("h1\x7b\x7d , #w \x7bx\x7d .a\x7b\x7d \x7d #w\x7b\x7d") := by
  exact ⟨by decide, by decide, by decide, by decide⟩

/-- C3: the wrapper-peel step runs only when the body has exactly one
meaningful child with more than one meaningful child of its own; there,
targets are replaced by the container's children iff `isWrapperName` holds or
(`childrenHaveCardClass` or `childrenAreSections`) holds and `isCardName`
does not.  Consequently a lone container of class exactly `card` with
several children yields one artifact (no split), while a lone container of
class `card-wrapper`, `grid`, `list`, `collection` or `group` with two or
more card-like children yields one artifact per child. -/
theorem C3_wrapper_peel (container : Node) (now bi : Nat) (block : String) :
    (∀ ts : List Node, ts.length ≠ 1 → peelTargets ts = ts) ∧
    ((getMeaningfulChildren (childrenOf container)).length ≤ 1 →
      peelTargets [container] = [container]) ∧
    (1 < (getMeaningfulChildren (childrenOf container)).length →
      (peelTargets [container] = getMeaningfulChildren (childrenOf container) ↔
        (isWrapperNameB (lowerStr (className container)) = true ∨
          ((childrenCardB (getMeaningfulChildren (childrenOf container)) = true ∨
              childrenSectionsB (getMeaningfulChildren (childrenOf container)) = true) ∧
            isCardNameB (lowerStr (className container)) = false)))) ∧
    (className container = ("card") →
      ∀ doc : HtmlDoc, getMeaningfulChildren doc.bodyChildren = [container] →
        (processBlock now bi block (some doc)).length = 1) ∧
    (∀ w : String,
      w ∈ [("card-wrapper"), ("grid"), ("list"), ("collection"), ("group")] →
      className container = w →
      2 ≤ (getMeaningfulChildren (childrenOf container)).length →
      (childrenCardB (getMeaningfulChildren (childrenOf container)) = true ∨
        childrenSectionsB (getMeaningfulChildren (childrenOf container)) = true) →
      ∀ doc : HtmlDoc, getMeaningfulChildren doc.bodyChildren = [container] →
        (processBlock now bi block (some doc)).length =
          (getMeaningfulChildren (childrenOf container)).length) := by
  refine ⟨?_, ?_, ?_, ?_, ?_⟩
  · intro ts hts
    cases ts with
    | nil => rfl
    | cons x r =>
      cases r with
      | nil => simp at hts
      | cons y r2 => rfl
  · intro hle
    simp only [peelTargets]
    rw [if_neg (by omega)]
  · intro hgt
    simp only [peelTargets]
    rw [if_pos hgt]
    by_cases hb : (isWrapperNameB (lowerStr (className container)) ||
        ((childrenCardB (getMeaningfulChildren (childrenOf container)) ||
            childrenSectionsB (getMeaningfulChildren (childrenOf container))) &&
          !(isCardNameB (lowerStr (className container))))) = true
    · rw [if_pos hb]
      constructor
      · intro _
        simp only [Bool.or_eq_true, Bool.and_eq_true, Bool.not_eq_true'] at hb
        exact hb
      · intro _
        rfl
    · rw [if_neg hb]
      constructor
      · intro heq
        have hlen := congrArg List.length heq
        simp at hlen
        omega
      · intro hcond
        exfalso
        apply hb
        simp only [Bool.or_eq_true, Bool.and_eq_true, Bool.not_eq_true']
        exact hcond
  · intro hclass doc hdoc
    have hcls : lowerStr (className container) = ("card") := by
      rw [hclass]
      decide
    have hpeel : peelTargets [container] = [container] := by
      simp only [peelTargets]
      by_cases hgt : 1 < (getMeaningfulChildren (childrenOf container)).length
      · rw [if_pos hgt]
        have hb : (isWrapperNameB (lowerStr (className container)) ||
            ((childrenCardB (getMeaningfulChildren (childrenOf container)) ||
                childrenSectionsB (getMeaningfulChildren (childrenOf container))) &&
              !(isCardNameB (lowerStr (className container))))) = false := by
          rw [hcls]
          have hw : isWrapperNameB ("card") = false := by decide
          have hcn : isCardNameB ("card") = true := by decide
          simp [hw, hcn]
        rw [if_neg (by simp [hb])]
      · rw [if_neg hgt]
    have hlen : ¬ 1 < (peelTargets (getMeaningfulChildren doc.bodyChildren)).length := by
      rw [hdoc, hpeel]
      simp
    simp only [processBlock, if_neg hlen]
    rcases htm : titleTagMatch block with _ | t <;> simp [htm]
  · intro w hw hclass hge hcardish doc hdoc
    have hwn : isWrapperNameB (lowerStr (className container)) = true := by
      rw [hclass]
      simp only [List.mem_cons, List.not_mem_nil, or_false] at hw
      rcases hw with rfl | rfl | rfl | rfl | rfl <;> decide
    have hpeel : peelTargets [container] =
        getMeaningfulChildren (childrenOf container) := by
      simp only [peelTargets]
      rw [if_pos (by omega), if_pos (by simp [hwn])]
    have h1lt : 1 < (peelTargets (getMeaningfulChildren doc.bodyChildren)).length := by
      rw [hdoc, hpeel]
      omega
    simp only [processBlock, if_pos h1lt]
    rw [List.length_map, enumFromN_length, hdoc, hpeel]

/-- C3 witness: the iff instantiated on a `card-wrapper` container (peel
happens), the `card` consequence on a two-part card, and the wrapper
consequence on two card sections. -/
theorem C3_wrapper_peel_witness :
    peelTargets [wrapW] = getMeaningfulChildren (childrenOf wrapW) ∧
    (processBlock 0 0 ("") (some docCardOnly)).length = 1 ∧
    (processBlock 0 0 ("") (some docWrapW)).length =
      (getMeaningfulChildren (childrenOf wrapW)).length := by
  refine ⟨?_, ?_, ?_⟩
  · exact ((C3_wrapper_peel wrapW 0 0 ("")).2.2.1 (by decide)).mpr (by decide)
  · exact (C3_wrapper_peel cardOnly 0 0 ("")).2.2.2.1 (by decide) docCardOnly rfl
  · exact (C3_wrapper_peel wrapW 0 0 ("")).2.2.2.2 ("card-wrapper") (by decide) (by decide)
      (by decide) (Or.inl (by decide)) docWrapW rfl

/-- C4: when the post-peel target list `ts` of a block has more than one
element, processing emits exactly `ts.length` artifacts in document order;
the i-th artifact's code is the standalone document embedding the block's
head inner markup and the i-th target's outer markup as a body with zero
margin, zero padding and transparent background, and its title is the
truncation of the resolved title, which follows the
heading / `title` attribute / `aria-label` / `Card {i+1}` chain. -/
theorem C4_split_emission (now bi : Nat) (block : String) (doc : HtmlDoc) (ts : List Node)
    (hts : peelTargets (getMeaningfulChildren doc.bodyChildren) = ts)
    (h1 : 1 < ts.length) :
    (processBlock now bi block (some doc)).length = ts.length ∧
    ∀ i, i < ts.length →
      ∃ a c, (processBlock now bi block (some doc)).get? i = some a ∧
        ts.get? i = some c ∧
        a.id = mkSplitId now bi i ∧
        a.code = ("<!DOCTYPE html>\n<html>\n<head>\n  <meta charset=\"UTF-8\">\n  ") ++
          innerL doc.headChildren ++
          ("\n</head>\n<body style=\"margin:0; padding:0; background: transparent;\">\n  ") ++
          outerN c ++ ("\n</body>\n</html>") ∧
        a.title = truncTitle (resolveTitle c i) ∧
        TitleSpec c i (resolveTitle c i) := by
  have hlen : 1 < (peelTargets (getMeaningfulChildren doc.bodyChildren)).length := by
    rw [hts]
    exact h1
  constructor
  · simp only [processBlock, if_pos hlen]
    rw [List.length_map, enumFromN_length, hts]
  · intro i hi
    have hc : ts.get? i = some (ts.get ⟨i, hi⟩) := List.get?_eq_get hi
    refine ⟨splitArtifact now bi (innerL doc.headChildren) (i, ts.get ⟨i, hi⟩),
      ts.get ⟨i, hi⟩, ?_, hc, rfl, rfl, rfl, resolveTitle_spec _ i⟩
    simp only [processBlock, if_pos hlen]
    rw [List.get?_map, hts, enumFromN_get?, hc]
    simp

/-- C4 witness: applied to the two-child body, emission length equals the
target count. -/
theorem C4_split_emission_witness :
    (processBlock 0 0 ("") (some docTwo)).length =
      (peelTargets (getMeaningfulChildren docTwo.bodyChildren)).length :=
  (C4_split_emission 0 0 ("") docTwo
    (peelTargets (getMeaningfulChildren docTwo.bodyChildren)) rfl (by decide)).1

/-- C5: a structural error on one block is caught at that block's boundary:
the failing block contributes exactly one pass-through artifact (code = the
block text, title = synthesized `Artifact {i+1}`), and the artifact segments
contributed by every other block are the same as under any oracle differing
only at the failing block — sibling processing is unaffected, each sibling
keeping its own index. -/
theorem C5_failure_isolation (p q : String → Option HtmlDoc) (now : Nat) (text : String)
    (i : Nat) (b : String) (hi : (detectBlocks text).get? i = some b)
    (hfail : p b = none) (hq : ∀ s, s ≠ b → q s = p s)
    (huniq : ∀ j c, (detectBlocks text).get? j = some c → j ≠ i → c ≠ b) :
    processBlock now i b (p b) =
      [Artifact.mk (mkErrId now i) b (("Artifact ") ++ natToString (i + 1)) ("html")] ∧
    extractArtifacts p now text =
      ((enumFromN 0 ((detectBlocks text).take i)).flatMap
          (fun pr => processBlock now pr.1 pr.2 (p pr.2))) ++
        Artifact.mk (mkErrId now i) b (("Artifact ") ++ natToString (i + 1)) ("html") ::
        ((enumFromN (i + 1) ((detectBlocks text).drop (i + 1))).flatMap
          (fun pr => processBlock now pr.1 pr.2 (p pr.2))) ∧
    extractArtifacts q now text =
      ((enumFromN 0 ((detectBlocks text).take i)).flatMap
          (fun pr => processBlock now pr.1 pr.2 (p pr.2))) ++
        processBlock now i b (q b) ++
        ((enumFromN (i + 1) ((detectBlocks text).drop (i + 1))).flatMap
          (fun pr => processBlock now pr.1 pr.2 (p pr.2))) := by
  have herr : processBlock now i b (p b) =
      [Artifact.mk (mkErrId now i) b (("Artifact ") ++ natToString (i + 1)) ("html")] := by
    rw [hfail]
    rfl
  have hdec := enumFromN_decomp hi 0
  simp only [Nat.zero_add] at hdec
  have hA : (enumFromN 0 ((detectBlocks text).take i)).flatMap
        (fun pr => processBlock now pr.1 pr.2 (q pr.2)) =
      (enumFromN 0 ((detectBlocks text).take i)).flatMap
        (fun pr => processBlock now pr.1 pr.2 (p pr.2)) := by
    apply flatMap_congr
    intro pr hpr
    have hm := mem_enumFromN hpr
    have h2 := hm.2
    rw [Nat.sub_zero] at h2
    have hjlt : pr.1 < i := by
      rcases List.get?_eq_some.mp h2 with ⟨hh, _⟩
      rw [List.length_take] at hh
      omega
    have hget : (detectBlocks text).get? pr.1 = some pr.2 := by
      rw [← List.get?_take hjlt]
      exact h2
    rw [hq pr.2 (huniq pr.1 pr.2 hget (by omega))]
  have hC : (enumFromN (i + 1) ((detectBlocks text).drop (i + 1))).flatMap
        (fun pr => processBlock now pr.1 pr.2 (q pr.2)) =
      (enumFromN (i + 1) ((detectBlocks text).drop (i + 1))).flatMap
        (fun pr => processBlock now pr.1 pr.2 (p pr.2)) := by
    apply flatMap_congr
    intro pr hpr
    have hm := mem_enumFromN hpr
    have h2 := hm.2
    rw [List.get?_drop] at h2
    have harith : i + 1 + (pr.1 - (i + 1)) = pr.1 := by omega
    rw [harith] at h2
    rw [hq pr.2 (huniq pr.1 pr.2 h2 (by omega))]
  refine ⟨herr, ?_, ?_⟩
  · unfold extractArtifacts
    rw [hdec]
    simp only [List.flatMap_append, List.flatMap_cons]
    rw [herr]
    simp
  · unfold extractArtifacts
    rw [hdec]
    simp only [List.flatMap_append, List.flatMap_cons]
    rw [hA, hC]
    simp [List.append_assoc]

/-- C5 witness: a single bare-fragment block whose parse fails degrades to
the one pass-through artifact. -/
theorem C5_failure_isolation_witness :
    processBlock 0 0 textW5 (wParseNone textW5) =
      [Artifact.mk (mkErrId 0 0) textW5 (("Artifact ") ++ natToString 1) ("html")] :=
  (C5_failure_isolation wParseNone qW5 0 textW5 0 textW5 (by decide) rfl
    (fun s hs => by simp [qW5, wParseNone, hs])
    (fun j c hj hj0 => by
      have hdbW : detectBlocks textW5 = [textW5] := by decide
      rw [hdbW] at hj
      cases j with
      | zero => exact absurd rfl hj0
      | succ n => simp at hj)).1

end ImageCard
